import Mathlib

/-!
# CAnnotate: a clang plugin that visits record declarations and if statements

A shallow embedding of `src/CAnnotate.cpp`.

* `CAnnotate` is the `RecursiveASTVisitor` subclass: it owns `DeclMap` and shares the
  `Rewriter` with the frontend action.
* `CAnnotate.VisitCXXRecordDecl`, `CAnnotate.VisitIfStmt`, `CAnnotate.getDeclMap`,
  `CAnnotate.stmtToString` follow the member functions of that class line by line.
* `CAnnotateASTConsumer.HandleTranslationUnit` and
  `FindNamedClassAction.EndSourceFileAction` follow the consumer and the action.

The clang library (syntax tree, source locations, `RecursiveASTVisitor`, `Rewriter`,
`printPretty`) is not part of the repository.  The tree is a fragment of the clang AST with
the node kinds the two visitors inspect, the walk and the edit buffers (one per file, fed by
the edits whose range lies in that file) are modelled from the specification, and the pretty
printer is a parameter `render` of everything that uses it.
In-place mutation of a node is modelled by returning the node after the call; the walk puts
the returned node back in the tree and goes on with its children.
Counts are `unsigned` in the source; no arithmetic is done on them, so they are `Nat` here.
The call `binOp->dumpColor()` only writes a dump of the node to the error stream and is left
out: it touches neither the tree, the rewriter nor the map.
-/

namespace CAnnotatePlugin

/-! ## Syntax tree and locations -/

/-- Operator kinds of a clang `BinaryOperator`, in the order of `OperationKinds.def`. -/
inductive BinaryOperatorKind where
  | BO_PtrMemD | BO_PtrMemI
  | BO_Mul | BO_Div | BO_Rem
  | BO_Add | BO_Sub
  | BO_Shl | BO_Shr
  | BO_Cmp
  | BO_LT | BO_GT | BO_LE | BO_GE
  | BO_EQ | BO_NE
  | BO_And | BO_Xor | BO_Or
  | BO_LAnd | BO_LOr
  | BO_Assign | BO_MulAssign | BO_DivAssign | BO_RemAssign | BO_AddAssign | BO_SubAssign
  | BO_ShlAssign | BO_ShrAssign | BO_AndAssign | BO_XorAssign | BO_OrAssign
  | BO_Comma
  deriving DecidableEq

/-- Modelled from the spec: the relational operators `<`, `>`, `<=`, `>=` of the glossary entry
"binary comparison expression" (clang `BinaryOperator::isRelationalOp`). -/
def BinaryOperatorKind.isRelationalOp : BinaryOperatorKind → Bool
  | .BO_LT | .BO_GT | .BO_LE | .BO_GE => true
  | _ => false

/-- Modelled from the spec: the equality operators `==`, `!=` of the glossary entry
"binary comparison expression" (clang `BinaryOperator::isEqualityOp`). -/
def BinaryOperatorKind.isEqualityOp : BinaryOperatorKind → Bool
  | .BO_EQ | .BO_NE => true
  | _ => false

/-- Operator kinds of a clang `UnaryOperator` that can occur in a condition. -/
inductive UnaryOperatorKind where
  | UO_Plus | UO_Minus | UO_Not | UO_LNot | UO_Deref | UO_AddrOf
  deriving DecidableEq

/-- Modelled from the spec: a Source Location is a (file identity, offset) pair with an
explicit validity flag. -/
structure SourceLocation where
  file : String
  offset : Nat
  valid : Bool
  deriving DecidableEq

/-- The validity test `isValid()` of a location. -/
def SourceLocation.isValid (l : SourceLocation) : Bool := l.valid

/-- Modelled from the spec: a Source Range is delimited by two Source Locations; the bytes it
covers in the buffer are those at offsets `B.offset ≤ i < E.offset`. -/
structure SourceRange where
  B : SourceLocation
  E : SourceLocation
  deriving DecidableEq

/-- A range is valid when both its ends are. -/
def SourceRange.isValid (r : SourceRange) : Bool := r.B.isValid && r.E.isValid

/-- The range is a position in the file `FID`: it is valid and both its ends lie in that
file ("ranges from different files are never merged"). -/
def SourceRange.inFile (r : SourceRange) (FID : String) : Bool :=
  r.isValid && (r.B.file == FID) && (r.E.file == FID)

/-- Expression nodes (a fragment of clang `Expr`). -/
inductive Expr where
  | DeclRefExpr (name : String)
  | IntegerLiteral (value : Nat)
  | ParenExpr (sub : Expr)
  | ImplicitCastExpr (sub : Expr)
  | UnaryOperator (opc : UnaryOperatorKind) (sub : Expr)
  | BinaryOperator (opc : BinaryOperatorKind) (lhs rhs : Expr)
  deriving DecidableEq

/-- The test `isa<BinaryOperator>(expr)`: the node itself is a `BinaryOperator`, whatever its
operator kind (parentheses and implicit casts are nodes of their own). -/
def Expr.isaBinaryOperator : Expr → Bool
  | .BinaryOperator _ _ _ => true
  | _ => false

/-- The call `binOp->setOpcode(opc)` on a `BinaryOperator` node; `dyn_cast` yields the node only
when it is a `BinaryOperator`. -/
def Expr.setOpcode (opc : BinaryOperatorKind) : Expr → Expr
  | .BinaryOperator _ l r => .BinaryOperator opc l r
  | e => e

/-- Statement nodes (a fragment of clang `Stmt`). -/
inductive Stmt where
  | IfStmt (range : SourceRange) (cond : Expr) (Then : Stmt) (Else : Option Stmt)
  | CompoundStmt (body : List Stmt)
  | WhileStmt (cond : Expr) (body : Stmt)
  | ReturnStmt (value : Option Expr)
  | ExprStmt (e : Expr)
  | NullStmt

/-- The fields of one `IfStmt` node, the argument of `VisitIfStmt`. -/
structure IfStmtNode where
  range : SourceRange
  cond : Expr
  Then : Stmt
  Else : Option Stmt

/-- The node as a statement of the tree. -/
def IfStmtNode.toStmt (n : IfStmtNode) : Stmt := .IfStmt n.range n.cond n.Then n.Else

/-- The accessor `ifStmt->getCond()`. -/
def IfStmtNode.getCond (n : IfStmtNode) : Expr := n.cond

/-- The accessor `ifStmt->getSourceRange()`. -/
def IfStmtNode.getSourceRange (n : IfStmtNode) : SourceRange := n.range

/-- Declaration nodes (a fragment of clang `Decl`). -/
inductive Decl where
  | TranslationUnitDecl (decls : List Decl)
  | CXXRecordDecl (BeginLoc : SourceLocation) (name : String) (members : List Decl)
  | FunctionDecl (name : String) (body : Option Stmt)
  | VarDecl (name : String) (init : Option Expr)
  | FieldDecl (name : String)

/-- The fields of one `CXXRecordDecl` node, the argument of `VisitCXXRecordDecl`. -/
structure CXXRecordDeclNode where
  BeginLoc : SourceLocation
  name : String
  members : List Decl

/-- The accessor `Declaration->getBeginLoc()`. -/
def CXXRecordDeclNode.getBeginLoc (n : CXXRecordDeclNode) : SourceLocation := n.BeginLoc

/-- The context query `Context->getFullLoc(loc)`: the location paired with its source manager;
validity and position are those of `loc`. -/
def getFullLoc (loc : SourceLocation) : SourceLocation := loc

/-! ## Rewriter -/

/-- Modelled from the spec: a Pending Edit is a (Source Range, replacement text) pair. -/
structure PendingEdit where
  range : SourceRange
  text : String
  deriving DecidableEq

/-- Modelled from the spec: the "read-only view of the original source text" the session
receives (clang `SourceManager`): the identity of the main file and the original text of each
file of the translation unit, included headers among them. -/
structure SourceManager where
  MainFileID : String
  files : List (String × List Char)

/-- The accessor `getMainFileID()`. -/
def SourceManager.getMainFileID (sm : SourceManager) : String := sm.MainFileID

/-- The original text of a file; a file the manager does not know has no text. -/
def SourceManager.getBufferData (sm : SourceManager) (FID : String) : List Char :=
  match sm.files.lookup FID with
  | some text => text
  | none => []

/-- Modelled from the spec: the rewriter (clang `Rewriter`, which is not part of the sources):
the source manager set by `setSourceMgr` and the Pending Edits received by `ReplaceText`, in
call order.  There is one Edit Buffer per file, see `Rewriter.getEditBuffer`. -/
structure Rewriter where
  SourceMgr : SourceManager
  Edits : List PendingEdit

/-- The accessor `getSourceMgr()`. -/
def Rewriter.getSourceMgr (rw : Rewriter) : SourceManager := rw.SourceMgr

/-- Modelled from the spec: `ReplaceText(range, text)` appends the Pending Edit
`(range, text)` to the pending-edit list of the Edit Buffer. -/
def Rewriter.ReplaceText (rw : Rewriter) (range : SourceRange) (text : String) : Rewriter :=
  { rw with Edits := rw.Edits ++ [{ range := range, text := text }] }

/-- Insertion of an edit into a list ordered by begin offset, before the edits that begin at
the same offset or later. -/
def insertEdit (e : PendingEdit) : List PendingEdit → List PendingEdit
  | [] => [e]
  | x :: xs => if e.range.B.offset ≤ x.range.B.offset then e :: x :: xs else x :: insertEdit e xs

/-- The edits in ascending Source Range order; edits with the same begin offset keep their
call order. -/
def sortEdits : List PendingEdit → List PendingEdit
  | [] => []
  | e :: es => insertEdit e (sortEdits es)

/-- Modelled from the spec: the output buffer is "assembled by copying original spans
interleaved with replacement spans in ascending range order"; `pos` is the offset of the
original text reached so far. -/
def assemble (original : List Char) (pos : Nat) : List PendingEdit → List Char
  | [] => original.drop pos
  | e :: es =>
    (original.drop pos).take (e.range.B.offset - pos) ++ e.text.toList
      ++ assemble original e.range.E.offset es

/-- Modelled from the spec: "apply all Pending Edits recorded in the Edit Buffer to the
original text, in Source Range order, producing the final edited text". -/
def applyEdits (original : List Char) (edits : List PendingEdit) : List Char :=
  assemble original 0 (sortEdits edits)

/-- The edits of the Edit Buffer of the file `FID`: the recorded edits whose range is a
position in that file, in call order.  A recorded edit whose range is invalid or lies in another
file reaches no text of this file. -/
def Rewriter.fileEdits (rw : Rewriter) (FID : String) : List PendingEdit :=
  rw.Edits.filter (fun e => e.range.inFile FID)

/-- Modelled from the spec: the call `getEditBuffer(FID)`, the Edit Buffer of one file: "the
mutable projection of the original source text for one file, onto which Pending Edits are
applied". -/
def Rewriter.getEditBuffer (rw : Rewriter) (FID : String) : List Char :=
  applyEdits (rw.SourceMgr.getBufferData FID) (rw.fileEdits FID)

/-! ## The visitor `CAnnotate` -/

/-- The type `llvm::StringMap<unsigned>`: file name to count, one entry per key. -/
abbrev StringMap := List (String × Nat)

/-- The class `CAnnotate`: the shared rewriter and the map "that contains the count of
declaration in every input file". -/
structure CAnnotate where
  rewriter : Rewriter
  DeclMap : StringMap

/-- The constructor `CAnnotate(Context, reWriter)`: `DeclMap` starts empty. -/
def CAnnotate.new (reWriter : Rewriter) : CAnnotate := { rewriter := reWriter, DeclMap := [] }

/-- The member `getDeclMap()`. -/
def CAnnotate.getDeclMap (self : CAnnotate) : StringMap := self.DeclMap

/-- The member `stmtToString(stmt)`: the statement printed by `printPretty` with a default
`PrintingPolicy`; the printer is the parameter `render`. -/
def CAnnotate.stmtToString (render : Stmt → String) (_self : CAnnotate) (stmt : Stmt) : String :=
  render stmt

/-- The member `VisitCXXRecordDecl(Declaration)`: both paths return `true` and neither touches
the visitor. -/
def CAnnotate.VisitCXXRecordDecl (self : CAnnotate) (Declaration : CXXRecordDeclNode) :
    Bool × CAnnotate :=
  let FullLocation := getFullLoc Declaration.getBeginLoc
  -- Basic sanity checking
  if !FullLocation.isValid then
    (true, self)
  else
    (true, self)

/-- The member `VisitIfStmt(ifStmt)`: when the condition is a `BinaryOperator` its opcode is set
to `BO_Cmp`; then, in every case, `ReplaceText` is called with the statement's source range and
the statement's rendering.  The result is the return value, the visitor and the node after the
call. -/
def CAnnotate.VisitIfStmt (render : Stmt → String) (self : CAnnotate) (ifStmt : IfStmtNode) :
    Bool × CAnnotate × IfStmtNode :=
  let expr := ifStmt.getCond
  let ifStmt1 : IfStmtNode :=
    if expr.isaBinaryOperator then
      { ifStmt with cond := expr.setOpcode .BO_Cmp }
    else
      ifStmt
  let self1 : CAnnotate :=
    { self with
      rewriter := self.rewriter.ReplaceText ifStmt1.getSourceRange
        (self.stmtToString render ifStmt1.toStmt) }
  (true, self1, ifStmt1)

/-! ## The walk of `RecursiveASTVisitor` -/

mutual
/-- Modelled from the spec: the Traversal Driver on statements, a depth-first pre-order walk.
An `IfStmt` is handed to `VisitIfStmt` first; the walk then descends into the children of the
visited node and stops as soon as a visitor returns `false`.  The result is the flag, the
visitor and the tree after the walk. -/
def TraverseStmt (render : Stmt → String) : Stmt → CAnnotate → Bool × CAnnotate × Stmt
  | .IfStmt r c t e, self =>
    let v := CAnnotate.VisitIfStmt render self { range := r, cond := c, Then := t, Else := e }
    if v.1 then
      let rt := TraverseStmt render t v.2.1
      if rt.1 then
        let re := TraverseOptStmt render e rt.2.1
        (re.1, re.2.1, .IfStmt v.2.2.range v.2.2.cond rt.2.2 re.2.2)
      else
        (false, rt.2.1, .IfStmt v.2.2.range v.2.2.cond rt.2.2 e)
    else
      (false, v.2.1, v.2.2.toStmt)
  | .CompoundStmt body, self =>
    let rb := TraverseStmts render body self
    (rb.1, rb.2.1, .CompoundStmt rb.2.2)
  | .WhileStmt c body, self =>
    let rb := TraverseStmt render body self
    (rb.1, rb.2.1, .WhileStmt c rb.2.2)
  | .ReturnStmt v, self => (true, self, .ReturnStmt v)
  | .ExprStmt e, self => (true, self, .ExprStmt e)
  | .NullStmt, self => (true, self, .NullStmt)
/-- The walk of an optional child (an absent `else` branch is skipped). -/
def TraverseOptStmt (render : Stmt → String) :
    Option Stmt → CAnnotate → Bool × CAnnotate × Option Stmt
  | none, self => (true, self, none)
  | some s, self =>
    let rs := TraverseStmt render s self
    (rs.1, rs.2.1, some rs.2.2)
/-- The walk of a sequence of children, left to right. -/
def TraverseStmts (render : Stmt → String) :
    List Stmt → CAnnotate → Bool × CAnnotate × List Stmt
  | [], self => (true, self, [])
  | s :: rest, self =>
    let rs := TraverseStmt render s self
    if rs.1 then
      let rr := TraverseStmts render rest rs.2.1
      (rr.1, rr.2.1, rs.2.2 :: rr.2.2)
    else
      (false, rs.2.1, rs.2.2 :: rest)
end

mutual
/-- Modelled from the spec: the Traversal Driver on declarations.  A `CXXRecordDecl` is handed
to `VisitCXXRecordDecl` first and its members are walked afterwards; the body of a function is
walked by `TraverseStmt`. -/
def TraverseDecl (render : Stmt → String) : Decl → CAnnotate → Bool × CAnnotate × Decl
  | .TranslationUnitDecl decls, self =>
    let rd := TraverseDecls render decls self
    (rd.1, rd.2.1, .TranslationUnitDecl rd.2.2)
  | .CXXRecordDecl loc name members, self =>
    let v := CAnnotate.VisitCXXRecordDecl self { BeginLoc := loc, name := name, members := members }
    if v.1 then
      let rm := TraverseDecls render members v.2
      (rm.1, rm.2.1, .CXXRecordDecl loc name rm.2.2)
    else
      (false, v.2, .CXXRecordDecl loc name members)
  | .FunctionDecl name none, self => (true, self, .FunctionDecl name none)
  | .FunctionDecl name (some body), self =>
    let rb := TraverseStmt render body self
    (rb.1, rb.2.1, .FunctionDecl name (some rb.2.2))
  | .VarDecl name init, self => (true, self, .VarDecl name init)
  | .FieldDecl name, self => (true, self, .FieldDecl name)
/-- The walk of a sequence of declarations, left to right. -/
def TraverseDecls (render : Stmt → String) :
    List Decl → CAnnotate → Bool × CAnnotate × List Decl
  | [], self => (true, self, [])
  | d :: rest, self =>
    let rd := TraverseDecl render d self
    if rd.1 then
      let rr := TraverseDecls render rest rd.2.1
      (rr.1, rr.2.1, rd.2.2 :: rr.2.2)
    else
      (false, rd.2.1, rd.2.2 :: rest)
end

/-! ## Consumer and frontend action -/

/-- The class `CAnnotateASTConsumer`: it owns the visitor. -/
structure CAnnotateASTConsumer where
  Visitor : CAnnotate

/-- The constructor `CAnnotateASTConsumer(Ctx, rewriter)`. -/
def CAnnotateASTConsumer.new (rewriter : Rewriter) : CAnnotateASTConsumer :=
  { Visitor := CAnnotate.new rewriter }

/-- The two lines written to `llvm::outs()` for one element of the map. -/
def elementLines (Element : String × Nat) : String :=
  "(clang-tutor)  file: " ++ Element.1 ++ "\n" ++
  ("(clang-tutor)  count: " ++ toString Element.2 ++ "\n")

/-- The member `HandleTranslationUnit(Ctx)`: one walk from the translation unit, then the
report.  The result is the consumer after the call, the text written to `llvm::outs()` and the
tree after the walk. -/
def CAnnotateASTConsumer.HandleTranslationUnit (render : Stmt → String)
    (self : CAnnotateASTConsumer) (tu : Decl) : CAnnotateASTConsumer × String × Decl :=
  let t := TraverseDecl render tu self.Visitor
  let self1 : CAnnotateASTConsumer := { Visitor := t.2.1 }
  if self1.Visitor.getDeclMap.isEmpty then
    (self1, "(clang-tutor)  no declarations found " ++ "\n", t.2.2)
  else
    (self1, self1.Visitor.getDeclMap.foldl (fun outs Element => outs ++ elementLines Element) "",
      t.2.2)

/-- The class `FindNamedClassAction`: it owns the rewriter shared with the visitor. -/
structure FindNamedClassAction where
  CannotateRewriter : Rewriter

/-- The constructor followed by `setSourceMgr(Compiler.getSourceManager(), ...)`: a rewriter
over the compiler's source manager with no edit. -/
def FindNamedClassAction.new (SourceMgr : SourceManager) : FindNamedClassAction :=
  { CannotateRewriter := { SourceMgr := SourceMgr, Edits := [] } }

/-- The member `CreateASTConsumer`: the consumer gets the action's rewriter. -/
def FindNamedClassAction.CreateASTConsumer (self : FindNamedClassAction) : CAnnotateASTConsumer :=
  CAnnotateASTConsumer.new self.CannotateRewriter

/-- The member `EndSourceFileAction()`: the edit buffer of the main file, and of no other
file, is written to `llvm::outs()`; there is no other path. -/
def FindNamedClassAction.EndSourceFileAction (self : FindNamedClassAction) : String :=
  String.mk
    (self.CannotateRewriter.getEditBuffer self.CannotateRewriter.getSourceMgr.getMainFileID)

/-- One plugin run on the files of a translation unit and its tree: consumer creation,
`HandleTranslationUnit`, `EndSourceFileAction`.  The rewriter is one shared object, so the
action writes the buffer the visitor edited.  The result is the report, the emitted text and the
tree after the walk. -/
def runPlugin (render : Stmt → String) (SourceMgr : SourceManager) (tu : Decl) :
    String × String × Decl :=
  let action := FindNamedClassAction.new SourceMgr
  let consumer := action.CreateASTConsumer
  let h := consumer.HandleTranslationUnit render tu
  let action1 : FindNamedClassAction := { CannotateRewriter := h.1.Visitor.rewriter }
  (h.2.1, action1.EndSourceFileAction, h.2.2)

/-! ## A printer for concrete runs -/

/-- The spelling of a binary operator (clang `BinaryOperator::getOpcodeStr`). -/
def BinaryOperatorKind.getOpcodeStr : BinaryOperatorKind → String
  | .BO_PtrMemD => ".*" | .BO_PtrMemI => "->*"
  | .BO_Mul => "*" | .BO_Div => "/" | .BO_Rem => "%"
  | .BO_Add => "+" | .BO_Sub => "-"
  | .BO_Shl => "<<" | .BO_Shr => ">>"
  | .BO_Cmp => "<=>"
  | .BO_LT => "<" | .BO_GT => ">" | .BO_LE => "<=" | .BO_GE => ">="
  | .BO_EQ => "==" | .BO_NE => "!="
  | .BO_And => "&" | .BO_Xor => "^" | .BO_Or => "|"
  | .BO_LAnd => "&&" | .BO_LOr => "||"
  | .BO_Assign => "=" | .BO_MulAssign => "*=" | .BO_DivAssign => "/=" | .BO_RemAssign => "%="
  | .BO_AddAssign => "+=" | .BO_SubAssign => "-=" | .BO_ShlAssign => "<<=" | .BO_ShrAssign => ">>="
  | .BO_AndAssign => "&=" | .BO_XorAssign => "^=" | .BO_OrAssign => "|="
  | .BO_Comma => ","

/-- The spelling of a unary operator. -/
def UnaryOperatorKind.getOpcodeStr : UnaryOperatorKind → String
  | .UO_Plus => "+" | .UO_Minus => "-" | .UO_Not => "~" | .UO_LNot => "!"
  | .UO_Deref => "*" | .UO_AddrOf => "&"

/-- Modelled from the spec: the Expression Renderer on expressions, a deterministic canonical
text of the node (implicit casts are not written). -/
def printExpr : Expr → String
  | .DeclRefExpr name => name
  | .IntegerLiteral value => toString value
  | .ParenExpr sub => "(" ++ printExpr sub ++ ")"
  | .ImplicitCastExpr sub => printExpr sub
  | .UnaryOperator opc sub => opc.getOpcodeStr ++ printExpr sub
  | .BinaryOperator opc lhs rhs => printExpr lhs ++ " " ++ opc.getOpcodeStr ++ " " ++ printExpr rhs

mutual
/-- Modelled from the spec: the Expression Renderer on statements, used as `render` in the
concrete runs below; every theorem that is not a concrete run holds for any renderer. -/
def printPretty : Stmt → String
  | .IfStmt _ c t none => "if (" ++ printExpr c ++ ") " ++ printPretty t
  | .IfStmt _ c t (some e) =>
    "if (" ++ printExpr c ++ ") " ++ printPretty t ++ "else " ++ printPretty e
  | .CompoundStmt body => "\x7b\n" ++ printPrettyList body ++ "\x7d\n"
  | .WhileStmt c body => "while (" ++ printExpr c ++ ") " ++ printPretty body
  | .ReturnStmt none => "return;\n"
  | .ReturnStmt (some v) => "return " ++ printExpr v ++ ";\n"
  | .ExprStmt e => printExpr e ++ ";\n"
  | .NullStmt => ";\n"
/-- The statements of a block, one after the other. -/
def printPrettyList : List Stmt → String
  | [] => ""
  | s :: rest => printPretty s ++ printPrettyList rest
end

/-! ## The nodes the visitors are called on -/

mutual
/-- The source ranges of the `IfStmt` nodes of a statement in the order of the walk, nested
ones included. -/
def ifRangesStmt : Stmt → List SourceRange
  | .IfStmt r _ t e => r :: (ifRangesStmt t ++ ifRangesOptStmt e)
  | .CompoundStmt body => ifRangesStmts body
  | .WhileStmt _ body => ifRangesStmt body
  | .ReturnStmt _ => []
  | .ExprStmt _ => []
  | .NullStmt => []
/-- The ranges of the `IfStmt` nodes of an optional statement. -/
def ifRangesOptStmt : Option Stmt → List SourceRange
  | none => []
  | some s => ifRangesStmt s
/-- The ranges of the `IfStmt` nodes of a sequence of statements. -/
def ifRangesStmts : List Stmt → List SourceRange
  | [] => []
  | s :: rest => ifRangesStmt s ++ ifRangesStmts rest
end

mutual
/-- The source ranges of the `IfStmt` nodes below a declaration in the order of the walk. -/
def ifRangesDecl : Decl → List SourceRange
  | .TranslationUnitDecl decls => ifRangesDecls decls
  | .CXXRecordDecl _ _ members => ifRangesDecls members
  | .FunctionDecl _ none => []
  | .FunctionDecl _ (some body) => ifRangesStmt body
  | .VarDecl _ _ => []
  | .FieldDecl _ => []
/-- The ranges of the `IfStmt` nodes below a sequence of declarations. -/
def ifRangesDecls : List Decl → List SourceRange
  | [] => []
  | d :: rest => ifRangesDecl d ++ ifRangesDecls rest
end

/-- The condition is a binary comparison expression in the sense of the glossary: a
`BinaryOperator` node whose operator is relational or an equality. -/
def Expr.isBinaryComparison : Expr → Bool
  | .BinaryOperator opc _ _ => opc.isRelationalOp || opc.isEqualityOp
  | _ => false

/-- The notice line of the report, without its line end. -/
def noticeLine : String := "(clang-tutor)  no declarations found "

/-- The report as the specification words it, line by line (line ends left out): the single
notice for an empty map, otherwise for each entry one line naming the file followed by one line
with its count. -/
def specReportLines (m : StringMap) : List String :=
  if m.isEmpty then [noticeLine]
  else m.flatMap (fun Element =>
    ["(clang-tutor)  file: " ++ Element.1, "(clang-tutor)  count: " ++ toString Element.2])

/-- The text of a sequence of lines, each followed by its line end. -/
def linesText (lines : List String) : String :=
  String.join (lines.map (fun l => l ++ "\n"))

/-! ## Concrete inputs -/

/-- A valid location of the main file `a.c`. -/
def locA (offset : Nat) : SourceLocation := { file := "a.c", offset := offset, valid := true }

/-- The invalid location. -/
def locInvalid : SourceLocation := { file := "", offset := 0, valid := false }

/-- The value of a variable read in an expression: the reference under its
lvalue-to-rvalue cast. -/
def rvalue (name : String) : Expr := .ImplicitCastExpr (.DeclRefExpr name)

/-- The expression `a == b`. -/
def exprAEqB : Expr := .BinaryOperator .BO_EQ (rvalue "a") (rvalue "b")

/-- The expression `a && b`. -/
def exprAAndB : Expr := .BinaryOperator .BO_LAnd (rvalue "a") (rvalue "b")

/-- The source manager of a translation unit whose only file is the main file `a.c`. -/
def mainOnly (text : String) : SourceManager :=
  { MainFileID := "a.c", files := [("a.c", text.toList)] }

/-- The main file `int a, b, c, d; void f() { if (a == b) { if (c < d) ; } }`: the outer if
statement covers [27,55), the inner one [41,53). -/
def nestedText : String :=
  "int a, b, c, d; void f() \x7b if (a == b) \x7b if (c < d) ; \x7d \x7d"

/-- The inner statement `if (c < d) ;` of `nestedText`. -/
def innerIf : Stmt :=
  .IfStmt { B := locA 41, E := locA 53 }
    (.BinaryOperator .BO_LT (rvalue "c") (rvalue "d")) .NullStmt none

/-- The tree of `nestedText`. -/
def nestedUnit : Decl :=
  .TranslationUnitDecl [.VarDecl "a" none, .VarDecl "b" none, .VarDecl "c" none,
    .VarDecl "d" none,
    .FunctionDecl "f" (some (.CompoundStmt [
      .IfStmt { B := locA 27, E := locA 55 } exprAEqB (.CompoundStmt [innerIf]) none]))]

/-- The files of a translation unit whose only file is `a.cpp` with the text
`struct S { int x; };`. -/
def oneRecordFiles : SourceManager :=
  { MainFileID := "a.cpp", files := [("a.cpp", "struct S \x7b int x; \x7d;".toList)] }

/-- A translation unit of `a.cpp` that holds `struct S { int x; };` and nothing else. -/
def oneRecordUnit : Decl :=
  .TranslationUnitDecl [.CXXRecordDecl { file := "a.cpp", offset := 0, valid := true } "S"
    [.FieldDecl "x"]]

/-- A main file `a.c` that includes `hdr.h`; the only if statement of the translation unit,
`if (a == b) return 1;`, lies in the header and covers [29,50) there. -/
def headerFiles : SourceManager :=
  { MainFileID := "a.c",
    files := [("a.c", "#include \"hdr.h\"\nint main() \x7b return 0; \x7d".toList),
      ("hdr.h",
        "static int g(int a, int b) \x7b if (a == b) return 1; return 0; \x7d".toList)] }

/-- The tree of `headerFiles`. -/
def headerUnit : Decl :=
  .TranslationUnitDecl [
    .FunctionDecl "g" (some (.CompoundStmt [
      .IfStmt { B := { file := "hdr.h", offset := 29, valid := true },
                E := { file := "hdr.h", offset := 50, valid := true } }
        exprAEqB (.ReturnStmt (some (.IntegerLiteral 1))) none,
      .ReturnStmt (some (.IntegerLiteral 0))])),
    .FunctionDecl "main" (some (.CompoundStmt [.ReturnStmt (some (.IntegerLiteral 0))]))]

/-- Two ranges intersect: each begins before the other ends. -/
def SourceRange.overlaps (r1 r2 : SourceRange) : Bool :=
  r1.B.offset < r2.E.offset && r2.B.offset < r1.E.offset

/-- What a walk that called `VisitIfStmt` on nodes with the ranges `rs` did to the visitor: it
ran to the end, left the map and the source manager alone and recorded one more edit per node,
in that order, each with the range of its node. -/
def Walked (self out : CAnnotate) (ok : Bool) (rs : List SourceRange) : Prop :=
  ok = true ∧ out.DeclMap = self.DeclMap ∧ out.rewriter.SourceMgr = self.rewriter.SourceMgr ∧
    out.rewriter.Edits.map (fun e => e.range) = self.rewriter.Edits.map (fun e => e.range) ++ rs

end CAnnotatePlugin

namespace CAnnotatePlugin

/-! ## Lemmas on the visitors and the walk -/

theorem Walked.refl (self : CAnnotate) : Walked self self true [] :=
  ⟨rfl, rfl, rfl, by simp⟩

theorem Walked.trans {a b c : CAnnotate} {ok1 ok2 : Bool} {rs1 rs2 : List SourceRange}
    (h1 : Walked a b ok1 rs1) (h2 : Walked b c ok2 rs2) : Walked a c ok2 (rs1 ++ rs2) := by
  obtain ⟨_, hm1, ho1, he1⟩ := h1
  obtain ⟨hk, hm2, ho2, he2⟩ := h2
  exact ⟨hk, hm2.trans hm1, ho2.trans ho1, by rw [he2, he1, List.append_assoc]⟩

/-- The node after `VisitIfStmt`. -/
theorem VisitIfStmt_node (render : Stmt → String) (self : CAnnotate) (n : IfStmtNode) :
    (CAnnotate.VisitIfStmt render self n).2.2
      = if n.cond.isaBinaryOperator then { n with cond := n.cond.setOpcode .BO_Cmp } else n := rfl

/-- The source range of the node is not touched by `VisitIfStmt`. -/
theorem VisitIfStmt_range (render : Stmt → String) (self : CAnnotate) (n : IfStmtNode) :
    (CAnnotate.VisitIfStmt render self n).2.2.range = n.range := by
  rw [VisitIfStmt_node]
  cases n.cond.isaBinaryOperator <;> rfl

/-- The rewriter after `VisitIfStmt`: one more `ReplaceText` call. -/
theorem VisitIfStmt_rewriter (render : Stmt → String) (self : CAnnotate) (n : IfStmtNode) :
    (CAnnotate.VisitIfStmt render self n).2.1.rewriter
      = self.rewriter.ReplaceText n.range
          (render (CAnnotate.VisitIfStmt render self n).2.2.toStmt) := by
  have h := VisitIfStmt_range render self n
  simp only [CAnnotate.VisitIfStmt, CAnnotate.stmtToString, IfStmtNode.getSourceRange] at h ⊢
  rw [h]

theorem VisitIfStmt_walked (render : Stmt → String) (self : CAnnotate) (n : IfStmtNode) :
    Walked self (CAnnotate.VisitIfStmt render self n).2.1
      (CAnnotate.VisitIfStmt render self n).1 [n.range] := by
  refine ⟨rfl, rfl, ?_, ?_⟩
  · rw [VisitIfStmt_rewriter]
    rfl
  · rw [VisitIfStmt_rewriter]
    simp [Rewriter.ReplaceText]

theorem VisitCXXRecordDecl_eq (self : CAnnotate) (n : CXXRecordDeclNode) :
    CAnnotate.VisitCXXRecordDecl self n = (true, self) := by
  simp [CAnnotate.VisitCXXRecordDecl]

mutual
theorem TraverseStmt_walked (render : Stmt → String) :
    ∀ (s : Stmt) (self : CAnnotate),
      Walked self (TraverseStmt render s self).2.1 (TraverseStmt render s self).1 (ifRangesStmt s)
  | .IfStmt r c t e, self => by
    have hv := VisitIfStmt_walked render self { range := r, cond := c, Then := t, Else := e }
    have ht := TraverseStmt_walked render t
      (CAnnotate.VisitIfStmt render self { range := r, cond := c, Then := t, Else := e }).2.1
    have he := TraverseOptStmt_walked render e
      (TraverseStmt render t
        (CAnnotate.VisitIfStmt render self { range := r, cond := c, Then := t, Else := e }).2.1).2.1
    have h := (hv.trans ht).trans he
    simp only [TraverseStmt, ifRangesStmt, hv.1, ht.1, if_true]
    simpa only [List.singleton_append, List.cons_append, List.nil_append] using h
  | .CompoundStmt body, self => by
    simpa only [TraverseStmt, ifRangesStmt] using TraverseStmts_walked render body self
  | .WhileStmt c body, self => by
    simpa only [TraverseStmt, ifRangesStmt] using TraverseStmt_walked render body self
  | .ReturnStmt v, self => by
    simpa only [TraverseStmt, ifRangesStmt] using Walked.refl self
  | .ExprStmt e, self => by
    simpa only [TraverseStmt, ifRangesStmt] using Walked.refl self
  | .NullStmt, self => by
    simpa only [TraverseStmt, ifRangesStmt] using Walked.refl self
theorem TraverseOptStmt_walked (render : Stmt → String) :
    ∀ (o : Option Stmt) (self : CAnnotate),
      Walked self (TraverseOptStmt render o self).2.1 (TraverseOptStmt render o self).1
        (ifRangesOptStmt o)
  | none, self => by
    simpa only [TraverseOptStmt, ifRangesOptStmt] using Walked.refl self
  | some s, self => by
    simpa only [TraverseOptStmt, ifRangesOptStmt] using TraverseStmt_walked render s self
theorem TraverseStmts_walked (render : Stmt → String) :
    ∀ (l : List Stmt) (self : CAnnotate),
      Walked self (TraverseStmts render l self).2.1 (TraverseStmts render l self).1
        (ifRangesStmts l)
  | [], self => by
    simpa only [TraverseStmts, ifRangesStmts] using Walked.refl self
  | s :: rest, self => by
    have hs := TraverseStmt_walked render s self
    have hr := TraverseStmts_walked render rest (TraverseStmt render s self).2.1
    simp only [TraverseStmts, ifRangesStmts, hs.1, if_true]
    exact hs.trans hr
end

mutual
theorem TraverseDecl_walked (render : Stmt → String) :
    ∀ (d : Decl) (self : CAnnotate),
      Walked self (TraverseDecl render d self).2.1 (TraverseDecl render d self).1 (ifRangesDecl d)
  | .TranslationUnitDecl decls, self => by
    simpa only [TraverseDecl, ifRangesDecl] using TraverseDecls_walked render decls self
  | .CXXRecordDecl loc name members, self => by
    simpa only [TraverseDecl, ifRangesDecl, VisitCXXRecordDecl_eq, if_true] using
      TraverseDecls_walked render members self
  | .FunctionDecl name none, self => by
    simpa only [TraverseDecl, ifRangesDecl] using Walked.refl self
  | .FunctionDecl name (some body), self => by
    simpa only [TraverseDecl, ifRangesDecl] using TraverseStmt_walked render body self
  | .VarDecl name init, self => by
    simpa only [TraverseDecl, ifRangesDecl] using Walked.refl self
  | .FieldDecl name, self => by
    simpa only [TraverseDecl, ifRangesDecl] using Walked.refl self
theorem TraverseDecls_walked (render : Stmt → String) :
    ∀ (l : List Decl) (self : CAnnotate),
      Walked self (TraverseDecls render l self).2.1 (TraverseDecls render l self).1
        (ifRangesDecls l)
  | [], self => by
    simpa only [TraverseDecls, ifRangesDecls] using Walked.refl self
  | d :: rest, self => by
    have hd := TraverseDecl_walked render d self
    have hr := TraverseDecls_walked render rest (TraverseDecl render d self).2.1
    simp only [TraverseDecls, ifRangesDecls, hd.1, if_true]
    exact hd.trans hr
end

/-- The walk leaves `DeclMap` as it found it. -/
theorem TraverseDecl_DeclMap (render : Stmt → String) (d : Decl) (self : CAnnotate) :
    (TraverseDecl render d self).2.1.getDeclMap = self.getDeclMap :=
  (TraverseDecl_walked render d self).2.1

/-- One edit applied to a text: the text before the range, the replacement, the text after the
range. -/
theorem applyEdits_single (original : List Char) (rg : SourceRange) (text : String) :
    applyEdits original [{ range := rg, text := text }]
      = original.take rg.B.offset ++ text.toList ++ original.drop rg.E.offset := by
  simp [applyEdits, sortEdits, insertEdit, assemble]

/-- The edits of a rewriter that has received one `ReplaceText` call and nothing else. -/
theorem ReplaceText_Edits (rw : Rewriter) (rg : SourceRange) (text : String)
    (h : rw.Edits = []) : (rw.ReplaceText rg text).Edits = [{ range := rg, text := text }] := by
  simp [Rewriter.ReplaceText, h]

/-- The buffer of the file of the range, on a rewriter that has received one `ReplaceText` call
and nothing else. -/
theorem getEditBuffer_single (rw : Rewriter) (rg : SourceRange) (text : String) (FID : String)
    (h : rw.Edits = []) (hf : rg.inFile FID = true) :
    (rw.ReplaceText rg text).getEditBuffer FID
      = (rw.SourceMgr.getBufferData FID).take rg.B.offset ++ text.toList
          ++ (rw.SourceMgr.getBufferData FID).drop rg.E.offset := by
  rw [← applyEdits_single]
  simp [Rewriter.getEditBuffer, Rewriter.fileEdits, Rewriter.ReplaceText, h, hf]

/-- Filtering the edits by the file of their range and taking the ranges commute. -/
theorem map_range_fileEdits (rw : Rewriter) (FID : String) :
    (rw.fileEdits FID).map (fun e => e.range)
      = (rw.Edits.map (fun e => e.range)).filter (fun r => r.inFile FID) := by
  unfold Rewriter.fileEdits
  induction rw.Edits with
  | nil => rfl
  | cons e es ih =>
    simp only [List.filter_cons, List.map_cons]
    cases e.range.inFile FID <;> simp [ih]

/-- Bytes before the replaced range keep their place. -/
theorem splice_before (original text : List Char) (a b i : Nat) (ha : a ≤ original.length)
    (hi : i < a) : (original.take a ++ text ++ original.drop b)[i]? = original[i]? := by
  have h1 : i < (original.take a).length := by simp; omega
  rw [List.append_assoc, List.getElem?_append_left h1, List.getElem?_take_of_lt hi]

/-- Bytes after the replaced range are shifted by the change of length and otherwise kept. -/
theorem splice_after (original text : List Char) (a b j : Nat) (ha : a ≤ original.length)
    (hj : b ≤ j) :
    (original.take a ++ text ++ original.drop b)[a + text.length + (j - b)]? = original[j]? := by
  have hl : (original.take a ++ text).length = a + text.length := by simp; omega
  have h2 : (original.take a ++ text).length ≤ a + text.length + (j - b) := by omega
  rw [List.getElem?_append_right h2, hl, List.getElem?_drop]
  congr 1
  omega

/-- The loop of `HandleTranslationUnit` over the map, from any text already written. -/
theorem foldl_elementLines (m : StringMap) (outs : String) :
    m.foldl (fun outs Element => outs ++ elementLines Element) outs
      = outs ++ String.join (m.map elementLines) := by
  induction m generalizing outs with
  | nil => exact String.ext (by simp)
  | cons x xs ih =>
    rw [List.foldl_cons, ih]
    exact String.ext (by simp)

/-- The lines of a non-empty map come in pairs: entry `i` gives line `2 * i` (the file) and line
`2 * i + 1` (the count). -/
theorem pairLines_getElem (m : StringMap) :
    ∀ (i : Nat) (Element : String × Nat), m[i]? = some Element →
      (m.flatMap (fun Element =>
        ["(clang-tutor)  file: " ++ Element.1,
          "(clang-tutor)  count: " ++ toString Element.2]))[2 * i]?
        = some ("(clang-tutor)  file: " ++ Element.1) ∧
      (m.flatMap (fun Element =>
        ["(clang-tutor)  file: " ++ Element.1,
          "(clang-tutor)  count: " ++ toString Element.2]))[2 * i + 1]?
        = some ("(clang-tutor)  count: " ++ toString Element.2) := by
  induction m with
  | nil => intro i Element h; simp at h
  | cons x xs ih =>
    intro i Element h
    cases i with
    | zero =>
      simp only [List.getElem?_cons_zero, Option.some.injEq] at h
      subst h
      simp [List.flatMap_cons]
    | succ k =>
      have hk : xs[k]? = some Element := by simpa using h
      have hh := ih k Element hk
      have e1 : 2 * (k + 1) = (2 * k) + 1 + 1 := by omega
      rw [e1]
      simpa [List.flatMap_cons] using hh

/-- Neither line of an entry is the notice line. -/
theorem noticeLine_not_mem_pairLines (m : StringMap) :
    noticeLine ∉ m.flatMap (fun Element =>
      ["(clang-tutor)  file: " ++ Element.1, "(clang-tutor)  count: " ++ toString Element.2]) := by
  intro h
  rw [List.mem_flatMap] at h
  obtain ⟨el, _, hel⟩ := h
  simp only [List.mem_cons, List.mem_singleton, List.not_mem_nil, or_false] at hel
  rcases hel with h1 | h1
  · have := congrArg String.data h1
    simp [noticeLine, String.data_append] at this
  · have := congrArg String.data h1
    simp [noticeLine, String.data_append] at this

theorem pairLines_length (m : StringMap) :
    (m.flatMap (fun Element =>
      ["(clang-tutor)  file: " ++ Element.1,
        "(clang-tutor)  count: " ++ toString Element.2])).length = 2 * m.length := by
  induction m with
  | nil => rfl
  | cons x xs ih => simp [List.flatMap_cons, ih]; omega

theorem join_elementLines (m : StringMap) :
    String.join (m.map elementLines) = linesText (m.flatMap (fun Element =>
      ["(clang-tutor)  file: " ++ Element.1,
        "(clang-tutor)  count: " ++ toString Element.2])) := by
  apply String.ext
  simp only [linesText, String.data_join]
  induction m with
  | nil => rfl
  | cons x xs ih =>
    simp only [List.map_cons, List.flatten_cons, List.flatMap_cons, List.map_append, ih,
      List.flatten_append]
    simp [elementLines, String.data_append]

/-- The text written by `HandleTranslationUnit` is the text of the report lines of the map the
visitor holds at the call. -/
theorem HandleTranslationUnit_out (render : Stmt → String) (self : CAnnotateASTConsumer)
    (tu : Decl) :
    (self.HandleTranslationUnit render tu).2.1
      = linesText (specReportLines self.Visitor.getDeclMap) := by
  have hm := TraverseDecl_DeclMap render tu self.Visitor
  unfold CAnnotateASTConsumer.HandleTranslationUnit
  simp only [hm]
  cases hcase : self.Visitor.getDeclMap with
  | nil => simp [specReportLines, linesText, noticeLine, String.join]
  | cons x xs =>
    simp only [List.isEmpty_cons, Bool.false_eq_true, if_false, specReportLines]
    rw [foldl_elementLines, join_elementLines]
    exact String.ext (by simp)

/-! ## The claims -/

/-- C1: on a translation unit with one record declaration at a valid location of `a.cpp` the
map returned by `getDeclMap` after the walk is empty (it has no entry for `a.cpp`), and the
report is the notice line. -/
theorem record_declaration_is_not_counted :
    ((CAnnotateASTConsumer.new { SourceMgr := oneRecordFiles, Edits := [] }).HandleTranslationUnit
        printPretty oneRecordUnit).1.Visitor.getDeclMap = [] ∧
    ((CAnnotateASTConsumer.new { SourceMgr := oneRecordFiles, Edits := [] }).HandleTranslationUnit
        printPretty oneRecordUnit).2.1 = "(clang-tutor)  no declarations found \n" := by
  constructor <;> rfl

/-- C2 (as stated, refuted): the statement `if (x) ;`, whose condition is a plain variable and
no binary comparison, makes `VisitIfStmt` record one pending edit, and the emitted text differs
from the original text. -/
theorem non_match_records_an_edit :
    (rvalue "x").isBinaryComparison = false ∧
    (CAnnotate.VisitIfStmt printPretty
      (CAnnotate.new { SourceMgr := mainOnly "if (x) ;", Edits := [] })
      { range := { B := locA 0, E := locA 8 }, cond := rvalue "x", Then := .NullStmt,
        Else := none }).2.1.rewriter.Edits
      = [{ range := { B := locA 0, E := locA 8 }, text := "if (x) ;\n" }] ∧
    (CAnnotate.VisitIfStmt printPretty
      (CAnnotate.new { SourceMgr := mainOnly "if (x) ;", Edits := [] })
      { range := { B := locA 0, E := locA 8 }, cond := rvalue "x", Then := .NullStmt,
        Else := none }).2.1.rewriter.getEditBuffer "a.c" ≠ "if (x) ;".toList := by
  refine ⟨rfl, rfl, ?_⟩
  decide

/-- C2 (amended): for every if statement whose condition is not a binary comparison,
`VisitIfStmt` records exactly one pending edit, whose range is the statement's source range and
whose text is the rendering of the statement as the call leaves it; when there is no other
edit, applying it to an original text gives that text with the span replaced by the rendering,
and so does the buffer of the file the statement lies in. -/
theorem VisitIfStmt_non_match_one_edit (render : Stmt → String) (self : CAnnotate)
    (n : IfStmtNode) (h : n.cond.isBinaryComparison = false) :
    (CAnnotate.VisitIfStmt render self n).2.1.rewriter.Edits
      = self.rewriter.Edits ++
        [{ range := n.range, text := render (CAnnotate.VisitIfStmt render self n).2.2.toStmt }] ∧
    (self.rewriter.Edits = [] → ∀ original : List Char,
      applyEdits original (CAnnotate.VisitIfStmt render self n).2.1.rewriter.Edits
        = original.take n.range.B.offset
          ++ (render (CAnnotate.VisitIfStmt render self n).2.2.toStmt).toList
          ++ original.drop n.range.E.offset) ∧
    (self.rewriter.Edits = [] → ∀ FID : String, n.range.inFile FID = true →
      (CAnnotate.VisitIfStmt render self n).2.1.rewriter.getEditBuffer FID
        = (self.rewriter.SourceMgr.getBufferData FID).take n.range.B.offset
          ++ (render (CAnnotate.VisitIfStmt render self n).2.2.toStmt).toList
          ++ (self.rewriter.SourceMgr.getBufferData FID).drop n.range.E.offset) := by
  have _ := h
  refine ⟨?_, ?_, ?_⟩
  · rw [VisitIfStmt_rewriter]
    rfl
  · intro he original
    rw [VisitIfStmt_rewriter, ReplaceText_Edits _ _ _ he, applyEdits_single]
  · intro he FID hf
    rw [VisitIfStmt_rewriter, getEditBuffer_single _ _ _ _ he hf]

theorem VisitIfStmt_non_match_one_edit_witness :
    (CAnnotate.VisitIfStmt printPretty
      (CAnnotate.new { SourceMgr := mainOnly "if (x) ;", Edits := [] })
      { range := { B := locA 0, E := locA 8 }, cond := rvalue "x", Then := .NullStmt,
        Else := none }).2.1.rewriter.getEditBuffer "a.c" = "if (x) ;\n".toList := by
  have h := (VisitIfStmt_non_match_one_edit printPretty
    (CAnnotate.new { SourceMgr := mainOnly "if (x) ;", Edits := [] })
    { range := { B := locA 0, E := locA 8 }, cond := rvalue "x", Then := .NullStmt,
      Else := none } rfl).2.2 rfl "a.c" rfl
  rw [h]
  decide

/-- C3 (as stated, refuted): the condition `a && b` is a binary expression with a logical
operator, not a binary comparison, and `VisitIfStmt` changes its operator kind to `BO_Cmp`, so
the statement after the call differs from the statement before it. -/
theorem logical_condition_is_mutated :
    exprAAndB.isBinaryComparison = false ∧
    (CAnnotate.VisitIfStmt printPretty
      (CAnnotate.new { SourceMgr := mainOnly "if (a && b) ;", Edits := [] })
      { range := { B := locA 0, E := locA 13 }, cond := exprAAndB, Then := .NullStmt,
        Else := none }).2.2.cond
      = .BinaryOperator .BO_Cmp (rvalue "a") (rvalue "b") ∧
    (CAnnotate.VisitIfStmt printPretty
      (CAnnotate.new { SourceMgr := mainOnly "if (a && b) ;", Edits := [] })
      { range := { B := locA 0, E := locA 13 }, cond := exprAAndB, Then := .NullStmt,
        Else := none }).2.2.cond ≠ exprAAndB := by
  refine ⟨rfl, rfl, ?_⟩
  decide

/-- C3 (amended): for every if statement whose condition is not a `BinaryOperator` node,
`VisitIfStmt` leaves the condition and the whole statement unchanged. -/
theorem VisitIfStmt_non_binary_unchanged (render : Stmt → String) (self : CAnnotate)
    (n : IfStmtNode) (h : n.cond.isaBinaryOperator = false) :
    (CAnnotate.VisitIfStmt render self n).2.2.cond = n.cond ∧
    (CAnnotate.VisitIfStmt render self n).2.2 = n ∧
    (CAnnotate.VisitIfStmt render self n).2.2.toStmt = n.toStmt := by
  rw [VisitIfStmt_node, h]
  exact ⟨rfl, rfl, rfl⟩

theorem VisitIfStmt_non_binary_unchanged_witness :
    (CAnnotate.VisitIfStmt printPretty
      (CAnnotate.new { SourceMgr := mainOnly "if ((a == b)) ;", Edits := [] })
      { range := { B := locA 0, E := locA 15 }, cond := .ParenExpr exprAEqB, Then := .NullStmt,
        Else := none }).2.2.cond = .ParenExpr exprAEqB :=
  (VisitIfStmt_non_binary_unchanged printPretty
    (CAnnotate.new { SourceMgr := mainOnly "if ((a == b)) ;", Edits := [] })
    { range := { B := locA 0, E := locA 15 }, cond := .ParenExpr exprAEqB, Then := .NullStmt,
      Else := none } rfl).1

/-- C4: for an if statement whose condition is the binary comparison `l op r` and whose source
range is [a,b) with `a ≤ b ≤` the length of the buffer, `VisitIfStmt` records exactly one
pending edit; its range is the statement's own range and its text is the rendering of the
statement with the operator already replaced; applied alone to the original buffer it yields
`original[0,a) ++ text ++ original[b,end)`, and every byte outside [a,b) is kept; the buffer
of the file the statement lies in is that text. -/
theorem VisitIfStmt_rewrite_range_integrity (render : Stmt → String) (original : List Char)
    (SourceMgr : SourceManager) (self : CAnnotate) (rg : SourceRange) (op : BinaryOperatorKind)
    (l r : Expr) (t : Stmt) (e : Option Stmt)
    (hop : (Expr.BinaryOperator op l r).isBinaryComparison = true)
    (hab : rg.B.offset ≤ rg.E.offset) (hb : rg.E.offset ≤ original.length) :
    (CAnnotate.VisitIfStmt render self
        { range := rg, cond := .BinaryOperator op l r, Then := t, Else := e }).2.1.rewriter.Edits
      = self.rewriter.Edits ++
        [{ range := rg, text := render (.IfStmt rg (.BinaryOperator .BO_Cmp l r) t e) }] ∧
    applyEdits original
        (CAnnotate.VisitIfStmt render (CAnnotate.new { SourceMgr := SourceMgr, Edits := [] })
          { range := rg, cond := .BinaryOperator op l r, Then := t,
            Else := e }).2.1.rewriter.Edits
      = original.take rg.B.offset
          ++ (render (.IfStmt rg (.BinaryOperator .BO_Cmp l r) t e)).toList
          ++ original.drop rg.E.offset ∧
    (∀ i, i < rg.B.offset →
      (applyEdits original
        (CAnnotate.VisitIfStmt render (CAnnotate.new { SourceMgr := SourceMgr, Edits := [] })
          { range := rg, cond := .BinaryOperator op l r, Then := t,
            Else := e }).2.1.rewriter.Edits)[i]? = original[i]?) ∧
    (∀ j, rg.E.offset ≤ j →
      (applyEdits original
        (CAnnotate.VisitIfStmt render (CAnnotate.new { SourceMgr := SourceMgr, Edits := [] })
          { range := rg, cond := .BinaryOperator op l r, Then := t,
            Else := e }).2.1.rewriter.Edits)[rg.B.offset
            + (render (.IfStmt rg (.BinaryOperator .BO_Cmp l r) t e)).toList.length
            + (j - rg.E.offset)]? = original[j]?) ∧
    (∀ FID : String, rg.inFile FID = true → SourceMgr.getBufferData FID = original →
      (CAnnotate.VisitIfStmt render (CAnnotate.new { SourceMgr := SourceMgr, Edits := [] })
        { range := rg, cond := .BinaryOperator op l r, Then := t,
          Else := e }).2.1.rewriter.getEditBuffer FID
        = original.take rg.B.offset
          ++ (render (.IfStmt rg (.BinaryOperator .BO_Cmp l r) t e)).toList
          ++ original.drop rg.E.offset) := by
  have _ := hop
  have hbuf : applyEdits original
        (CAnnotate.VisitIfStmt render (CAnnotate.new { SourceMgr := SourceMgr, Edits := [] })
          { range := rg, cond := .BinaryOperator op l r, Then := t,
            Else := e }).2.1.rewriter.Edits
      = original.take rg.B.offset
          ++ (render (.IfStmt rg (.BinaryOperator .BO_Cmp l r) t e)).toList
          ++ original.drop rg.E.offset := by
    rw [VisitIfStmt_rewriter, ReplaceText_Edits _ _ _ rfl, applyEdits_single]
    rfl
  refine ⟨?_, hbuf, ?_, ?_, ?_⟩
  · rw [VisitIfStmt_rewriter]
    rfl
  · intro i hi
    rw [hbuf]
    exact splice_before original _ _ _ i (by omega) hi
  · intro j hj
    rw [hbuf]
    exact splice_after original _ _ _ j (by omega) hj
  · intro FID hf ho
    rw [VisitIfStmt_rewriter, getEditBuffer_single _ _ _ _ rfl hf, ← ho]
    rfl

theorem VisitIfStmt_rewrite_range_integrity_witness :
    (CAnnotate.VisitIfStmt printPretty
        (CAnnotate.new { SourceMgr := mainOnly "x; if (a == b) ; y;", Edits := [] })
        { range := { B := locA 3, E := locA 16 }, cond := exprAEqB, Then := .NullStmt,
          Else := none }).2.1.rewriter.getEditBuffer "a.c"
      = "x; if (a <=> b) ;\n y;".toList := by
  have h := (VisitIfStmt_rewrite_range_integrity printPretty "x; if (a == b) ; y;".toList
    (mainOnly "x; if (a == b) ; y;")
    (CAnnotate.new { SourceMgr := mainOnly "x; if (a == b) ; y;", Edits := [] })
    { B := locA 3, E := locA 16 } .BO_EQ (rvalue "a") (rvalue "b") .NullStmt none
    rfl (by decide) (by decide)).2.2.2.2 "a.c" rfl rfl
  rw [exprAEqB, h]
  decide

/-- C5 (as stated, refuted): on `if (a == b) { if (c < d) ; }` in the body of a function of
the main file the walk records the edit of the outer statement and then the edit of the inner
one; their ranges intersect, both are edits of the main file's buffer at the end of the walk
(the later one is not rejected), the walk runs to its end and the report is the notice line
alone (the session does not fail and writes no diagnostic). -/
theorem nested_edits_are_both_pending :
    ((FindNamedClassAction.new (mainOnly nestedText)).CreateASTConsumer.HandleTranslationUnit
        printPretty nestedUnit).1.Visitor.rewriter.fileEdits
        (mainOnly nestedText).getMainFileID
      = [{ range := { B := locA 27, E := locA 55 },
           text := "if (a <=> b) \x7b\nif (c < d) ;\n\x7d\n" },
         { range := { B := locA 41, E := locA 53 }, text := "if (c <=> d) ;\n" }] ∧
    SourceRange.overlaps { B := locA 27, E := locA 55 } { B := locA 41, E := locA 53 } = true ∧
    (TraverseDecl printPretty nestedUnit
      (FindNamedClassAction.new (mainOnly nestedText)).CreateASTConsumer.Visitor).1 = true ∧
    ((FindNamedClassAction.new (mainOnly nestedText)).CreateASTConsumer.HandleTranslationUnit
        printPretty nestedUnit).2.1 = "(clang-tutor)  no declarations found \n" := by
  refine ⟨?_, rfl, rfl, rfl⟩
  decide

/-- C5 (amended): the session makes no overlap check.  Every if statement of the tree, nested
ones included, adds one edit with its own range to the rewriter, in the order of the walk,
whether or not the range intersects an earlier one; every such edit whose range is a position
in the main file is an edit of the buffer `EndSourceFileAction` writes; the walk runs to
its end and the report is the notice line alone.  When no if statement lies in the main file,
the emitted text is the main file unchanged. -/
theorem session_records_every_if_edit (render : Stmt → String) (SourceMgr : SourceManager)
    (tu : Decl) :
    ((FindNamedClassAction.new SourceMgr).CreateASTConsumer.HandleTranslationUnit
        render tu).1.Visitor.rewriter.Edits.map (fun e => e.range) = ifRangesDecl tu ∧
    (((FindNamedClassAction.new SourceMgr).CreateASTConsumer.HandleTranslationUnit
        render tu).1.Visitor.rewriter.fileEdits SourceMgr.getMainFileID).map
          (fun e => e.range)
      = (ifRangesDecl tu).filter (fun r => r.inFile SourceMgr.getMainFileID) ∧
    (TraverseDecl render tu (FindNamedClassAction.new SourceMgr).CreateASTConsumer.Visitor).1
      = true ∧
    ((FindNamedClassAction.new SourceMgr).CreateASTConsumer.HandleTranslationUnit
        render tu).2.1 = "(clang-tutor)  no declarations found \n" ∧
    ((ifRangesDecl tu).filter (fun r => r.inFile SourceMgr.getMainFileID) = [] →
      (runPlugin render SourceMgr tu).2.1
        = String.mk (SourceMgr.getBufferData SourceMgr.getMainFileID)) := by
  have hw := TraverseDecl_walked render tu
    (FindNamedClassAction.new SourceMgr).CreateASTConsumer.Visitor
  have hv : ((FindNamedClassAction.new SourceMgr).CreateASTConsumer.HandleTranslationUnit
      render tu).1.Visitor
      = (TraverseDecl render tu
          (FindNamedClassAction.new SourceMgr).CreateASTConsumer.Visitor).2.1 := by
    unfold CAnnotateASTConsumer.HandleTranslationUnit
    simp only
    split <;> rfl
  have hnew : (FindNamedClassAction.new SourceMgr).CreateASTConsumer.Visitor.getDeclMap = [] :=
    rfl
  have hE : ((FindNamedClassAction.new SourceMgr).CreateASTConsumer.HandleTranslationUnit
        render tu).1.Visitor.rewriter.Edits.map (fun e => e.range) = ifRangesDecl tu := by
    rw [hv, hw.2.2.2]
    rfl
  have hP : (((FindNamedClassAction.new SourceMgr).CreateASTConsumer.HandleTranslationUnit
        render tu).1.Visitor.rewriter.fileEdits SourceMgr.getMainFileID).map
          (fun e => e.range)
      = (ifRangesDecl tu).filter (fun r => r.inFile SourceMgr.getMainFileID) := by
    rw [map_range_fileEdits, hE]
  refine ⟨hE, hP, hw.1, ?_, ?_⟩
  · rw [HandleTranslationUnit_out, hnew]
    decide
  · intro hnone
    rw [hnone] at hP
    have hnil := List.map_eq_nil_iff.mp hP
    have hs : ((FindNamedClassAction.new SourceMgr).CreateASTConsumer.HandleTranslationUnit
        render tu).1.Visitor.rewriter.SourceMgr = SourceMgr := by
      rw [hv, hw.2.2.1]
      rfl
    simp only [runPlugin, FindNamedClassAction.EndSourceFileAction, Rewriter.getEditBuffer,
      Rewriter.getSourceMgr, hs, hnil]
    simp [applyEdits, sortEdits, assemble]

theorem session_records_every_if_edit_witness :
    (runPlugin printPretty headerFiles headerUnit).2.1
      = "#include \"hdr.h\"\nint main() \x7b return 0; \x7d" :=
  (session_records_every_if_edit printPretty headerFiles headerUnit).2.2.2.2 (by decide)

/-- C6: for an if statement whose condition is the binary comparison `l op r`, the statement
after `VisitIfStmt` is the statement before it with the operator kind of the condition replaced
by `BO_Cmp`: range, operands and branches are the same, and the visitor returns `true`. -/
theorem VisitIfStmt_mutate_step (render : Stmt → String) (self : CAnnotate) (rg : SourceRange)
    (op : BinaryOperatorKind) (l r : Expr) (t : Stmt) (e : Option Stmt)
    (hop : (Expr.BinaryOperator op l r).isBinaryComparison = true) :
    (CAnnotate.VisitIfStmt render self
        { range := rg, cond := .BinaryOperator op l r, Then := t, Else := e }).1 = true ∧
    (CAnnotate.VisitIfStmt render self
        { range := rg, cond := .BinaryOperator op l r, Then := t, Else := e }).2.2
      = { range := rg, cond := .BinaryOperator .BO_Cmp l r, Then := t, Else := e } ∧
    (CAnnotate.VisitIfStmt render self
        { range := rg, cond := .BinaryOperator op l r, Then := t, Else := e }).2.2.toStmt
      = .IfStmt rg (.BinaryOperator .BO_Cmp l r) t e := by
  have _ := hop
  exact ⟨rfl, rfl, rfl⟩

theorem VisitIfStmt_mutate_step_witness :
    (CAnnotate.VisitIfStmt printPretty
        (CAnnotate.new { SourceMgr := mainOnly nestedText, Edits := [] })
        { range := { B := locA 41, E := locA 53 },
          cond := .BinaryOperator .BO_LT (rvalue "c") (rvalue "d"),
          Then := .NullStmt, Else := none }).2.2.toStmt
      = .IfStmt { B := locA 41, E := locA 53 }
          (.BinaryOperator .BO_Cmp (rvalue "c") (rvalue "d")) .NullStmt none :=
  (VisitIfStmt_mutate_step printPretty
    (CAnnotate.new { SourceMgr := mainOnly nestedText, Edits := [] })
    { B := locA 41, E := locA 53 } .BO_LT (rvalue "c") (rvalue "d") .NullStmt none
    rfl).2.2

/-- C7: whatever map `m` the visitor holds, the walk leaves it as it is and the text written by
`HandleTranslationUnit` is the text of these lines: the single notice line when `m` is empty;
otherwise no notice line and, for the entry at position `i`, the file line at position `2 * i`
immediately followed by its count line, `2 * |m|` lines in all. -/
theorem HandleTranslationUnit_report_format (render : Stmt → String)
    (self : CAnnotateASTConsumer) (tu : Decl) :
    (self.HandleTranslationUnit render tu).1.Visitor.getDeclMap = self.Visitor.getDeclMap ∧
    (self.HandleTranslationUnit render tu).2.1
      = linesText (specReportLines self.Visitor.getDeclMap) ∧
    (self.Visitor.getDeclMap = [] →
      specReportLines self.Visitor.getDeclMap = ["(clang-tutor)  no declarations found "]) ∧
    (self.Visitor.getDeclMap ≠ [] →
      noticeLine ∉ specReportLines self.Visitor.getDeclMap ∧
      (specReportLines self.Visitor.getDeclMap).length = 2 * self.Visitor.getDeclMap.length ∧
      ∀ (i : Nat) (Element : String × Nat), self.Visitor.getDeclMap[i]? = some Element →
        (specReportLines self.Visitor.getDeclMap)[2 * i]?
          = some ("(clang-tutor)  file: " ++ Element.1) ∧
        (specReportLines self.Visitor.getDeclMap)[2 * i + 1]?
          = some ("(clang-tutor)  count: " ++ toString Element.2)) := by
  refine ⟨?_, HandleTranslationUnit_out render self tu, ?_, ?_⟩
  · have hm := TraverseDecl_DeclMap render tu self.Visitor
    unfold CAnnotateASTConsumer.HandleTranslationUnit
    simp only
    split <;> exact hm
  · intro h
    rw [h]
    rfl
  · intro h
    have hl : specReportLines self.Visitor.getDeclMap
        = self.Visitor.getDeclMap.flatMap (fun Element =>
          ["(clang-tutor)  file: " ++ Element.1,
            "(clang-tutor)  count: " ++ toString Element.2]) := by
      unfold specReportLines
      cases hc : self.Visitor.getDeclMap with
      | nil => exact absurd hc h
      | cons x xs => rfl
    rw [hl]
    exact ⟨noticeLine_not_mem_pairLines _, pairLines_length _, pairLines_getElem _⟩

theorem HandleTranslationUnit_report_format_witness :
    ([("a.cpp", 2), ("b.h", 1)] : StringMap) ≠ [] ∧
    (specReportLines [("a.cpp", 2), ("b.h", 1)])[2 * 1 + 1]? = some "(clang-tutor)  count: 1" := by
  have h := (HandleTranslationUnit_report_format printPretty
    { Visitor := { rewriter := { SourceMgr := oneRecordFiles, Edits := [] },
                   DeclMap := [("a.cpp", 2), ("b.h", 1)] } } oneRecordUnit).2.2.2
    (by decide)
  exact ⟨by decide, (h.2.2 1 ("b.h", 1) rfl).2⟩

/-- C8: for every visitor state and every record declaration whose resolved location is
invalid, `VisitCXXRecordDecl` returns `true` and leaves the visitor, hence the count map, exactly
as it was; and a translation unit with such a declaration added gives the same map after the
walk as the unit without it. -/
theorem VisitCXXRecordDecl_invalid_location (render : Stmt → String) (self : CAnnotate)
    (d : CXXRecordDeclNode) (before after : List Decl)
    (h : (getFullLoc d.getBeginLoc).isValid = false) :
    CAnnotate.VisitCXXRecordDecl self d = (true, self) ∧
    (CAnnotate.VisitCXXRecordDecl self d).2.getDeclMap = self.getDeclMap ∧
    (TraverseDecl render
        (.TranslationUnitDecl (before ++ .CXXRecordDecl d.BeginLoc d.name d.members :: after))
        self).2.1.getDeclMap
      = (TraverseDecl render (.TranslationUnitDecl (before ++ after)) self).2.1.getDeclMap := by
  have hv : CAnnotate.VisitCXXRecordDecl self d = (true, self) := by
    unfold CAnnotate.VisitCXXRecordDecl
    simp only [h, Bool.not_false, if_true]
  refine ⟨hv, by rw [hv], ?_⟩
  rw [TraverseDecl_DeclMap, TraverseDecl_DeclMap]

theorem VisitCXXRecordDecl_invalid_location_witness :
    CAnnotate.VisitCXXRecordDecl
        { rewriter := { SourceMgr := oneRecordFiles, Edits := [] }, DeclMap := [("a.cpp", 2)] }
        { BeginLoc := locInvalid, name := "S", members := [] }
      = (true,
          { rewriter := { SourceMgr := oneRecordFiles, Edits := [] }, DeclMap := [("a.cpp", 2)] }) :=
  (VisitCXXRecordDecl_invalid_location printPretty
    { rewriter := { SourceMgr := oneRecordFiles, Edits := [] }, DeclMap := [("a.cpp", 2)] }
    { BeginLoc := locInvalid, name := "S", members := [] } [] [] rfl).1

/-- C9: on the statement `if (a == b) ;` with an invalid source range `VisitIfStmt` sets the
operator of the condition to `BO_Cmp` and still records a pending edit, whose range is the
invalid one. -/
theorem invalid_range_edit_is_recorded :
    SourceRange.isValid { B := locInvalid, E := locInvalid } = false ∧
    (CAnnotate.VisitIfStmt printPretty
      (CAnnotate.new { SourceMgr := mainOnly "if (a == b) ;", Edits := [] })
      { range := { B := locInvalid, E := locInvalid }, cond := exprAEqB, Then := .NullStmt,
        Else := none }).2.1.rewriter.Edits
      = [{ range := { B := locInvalid, E := locInvalid }, text := "if (a <=> b) ;\n" }] ∧
    (CAnnotate.VisitIfStmt printPretty
      (CAnnotate.new { SourceMgr := mainOnly "if (a == b) ;", Edits := [] })
      { range := { B := locInvalid, E := locInvalid }, cond := exprAEqB, Then := .NullStmt,
        Else := none }).2.2.cond
      = .BinaryOperator .BO_Cmp (rvalue "a") (rvalue "b") :=
  ⟨rfl, rfl, rfl⟩

/-- C10: neither `VisitCXXRecordDecl` nor `VisitIfStmt` changes `DeclMap`, no walk does, and
from the empty map of a fresh visitor the map is empty after the walk and the report of
`HandleTranslationUnit` is the single notice line. -/
theorem DeclMap_is_never_written (render : Stmt → String) (self : CAnnotate)
    (d : CXXRecordDeclNode) (n : IfStmtNode) (rewriter : Rewriter) (tu : Decl) :
    (CAnnotate.VisitCXXRecordDecl self d).2.getDeclMap = self.getDeclMap ∧
    (CAnnotate.VisitIfStmt render self n).2.1.getDeclMap = self.getDeclMap ∧
    (TraverseDecl render tu self).2.1.getDeclMap = self.getDeclMap ∧
    ((CAnnotateASTConsumer.new rewriter).HandleTranslationUnit render tu).1.Visitor.getDeclMap
      = [] ∧
    ((CAnnotateASTConsumer.new rewriter).HandleTranslationUnit render tu).2.1
      = "(clang-tutor)  no declarations found \n" := by
  have hm := TraverseDecl_DeclMap render tu (CAnnotateASTConsumer.new rewriter).Visitor
  have hnew : (CAnnotateASTConsumer.new rewriter).Visitor.getDeclMap = [] := rfl
  refine ⟨by rw [VisitCXXRecordDecl_eq], rfl, TraverseDecl_DeclMap render tu self, ?_, ?_⟩
  · unfold CAnnotateASTConsumer.HandleTranslationUnit
    simp only
    split <;> exact hm.trans hnew
  · rw [HandleTranslationUnit_out, hnew]
    decide

end CAnnotatePlugin
